import Mathlib

/-!
Verification development for the COCO/VOC converter
(source file: coco_voc_converter.py).

The Python source is shallowly embedded below.  Python is dynamically
typed; following the data model of the design document (ImageRecord,
RegionAnnot, CategoryLabel), element texts and label names are embedded
as strings and all coordinates, sizes and identifiers as unbounded
integers (Python ints are unbounded, so Int is exact).  Fallible code is
embedded in the Option monad: a Python exception (AttributeError,
ValueError, TypeError, NameError, FileNotFoundError, AssertionError)
becomes the value none or an explicit error constructor, and Option.bind
propagates the abort exactly as an uncaught exception aborts the run.
-/

/-! ## Model of the Python float type on integer values

The converter stores one float: area, computed as float of a product of
ints.  CPython floats are IEEE-754 binary64 doubles, and converting an
int to a double rounds to the nearest double, ties to even.  A double
carries a 53-bit significand, so every integer of magnitude at most 2^53
converts exactly, while an integer in the binade from 2^e to 2^(e+1)
(with e at least 53) is rounded to the nearest multiple of 2^(e-52).
The rounded value of an integer is again an integer, so the model keeps
the exact mathematical value of the resulting double as an Int.
Magnitudes at or beyond 2^1024 would raise OverflowError in Python; the
model does not track that bound, and no theorem below evaluates the
model there. -/

/-- Round the natural number n to the nearest multiple of step,
ties going to the even multiple. -/
def roundHalfEven (n step : Nat) : Nat :=
  let q := n / step
  let r := n % step
  if 2 * r < step then q * step
  else if 2 * r > step then (q + 1) * step
  else if q % 2 = 0 then q * step else (q + 1) * step

/-- Value of the IEEE-754 binary64 double nearest to the natural
number m, ties to even: exact below 2^53, otherwise rounded to the
grid of the binade given by the base-2 logarithm of m. -/
def pyFloatNat (m : Nat) : Nat :=
  if m ≤ 2 ^ 53 then m
  else roundHalfEven m (2 ^ (Nat.log2 m - 52))

/-- Exact value of the Python expression float(n) for an int n:
rounding to double precision is symmetric in sign. -/
def pyFloat (n : Int) : Int :=
  if n < 0 then -(pyFloatNat n.natAbs : Int) else (pyFloatNat n.natAbs : Int)

/-! ## The data model

Records built by load_voc_ann (the dicts of lines 236-272) and
the dicts of the COCO aggregate record (lines 164-216).  The Python
bbox lists always carry exactly four integers and are embedded as
four-field records, in the order the source lists them. -/

/-- The dict ann['image_info'] built at lines 244-249. -/
structure ImageInfo where
  filename : String
  width : Int
  height : Int
  depth : Int
deriving DecidableEq

/-- Corner-form bounding box: the list [xmin, ymin, xmax, ymax] built
at lines 258-263. -/
structure CornerBox where
  xmin : Int
  ymin : Int
  xmax : Int
  ymax : Int
deriving DecidableEq

/-- One entry of ann['ann'], the region dict built at lines 264-272. -/
structure VocRegion where
  label : String
  pose : String
  truncated : Int
  difficult : Int
  bbox : CornerBox
deriving DecidableEq

/-- One per-image record of the list all_ann returned by
load_voc_ann. -/
structure VocAnn where
  image_info : ImageInfo
  ann : List VocRegion
deriving DecidableEq

/-- One entry of coco_ann['categories'] (lines 170-176). -/
structure CocoCategory where
  supercategory : Option String
  id : Int
  name : String
deriving DecidableEq

/-- One entry of coco_ann['images'] (lines 179-187). -/
structure CocoImage where
  file_name : String
  width : Int
  height : Int
  depth : Int
  id : Int
deriving DecidableEq

/-- Origin-plus-extent bounding box: the list
[xmin, ymin, width, height] built at line 200. -/
structure CocoBox where
  xmin : Int
  ymin : Int
  w : Int
  h : Int
deriving DecidableEq

/-- One entry of coco_ann['annotations'] (lines 201-215); area holds
the exact value of the Python float (see pyFloat), segmentation is
always the JSON null. -/
structure CocoAnnot where
  id : Int
  image_id : Int
  name : String
  category_id : Int
  bbox : CocoBox
  area : Int
  segmentation : Option String
  iscrowd : Int
  pose : String
  truncated : Int
  difficult : Int
deriving DecidableEq

/-- The aggregate record coco_ann (lines 164-168). -/
structure CocoAnn where
  images : List CocoImage
  annotations : List CocoAnnot
  categories : List CocoCategory
deriving DecidableEq

/-! ## XML model and the distributed-format reader

An ElementTree element is a tag, a text (the model restricts attention
to elements whose text is a string, the shape the distributed format of
the design document prescribes), and a list of children.  Children form
a mutually inductive forest so that recursion over the tree is
structural and computable by the kernel. -/

mutual
inductive XmlNode where
  | node (tag : String) (text : String) (children : XmlForest)
inductive XmlForest where
  | nil
  | cons (head : XmlNode) (tail : XmlForest)
end

mutual
def XmlNode.decEq : (a b : XmlNode) → Decidable (a = b)
  | .node t1 x1 c1, .node t2 x2 c2 =>
    match String.decEq t1 t2, String.decEq x1 x2, XmlForest.decEq c1 c2 with
    | isTrue h1, isTrue h2, isTrue h3 => isTrue (by rw [h1, h2, h3])
    | isFalse h1, _, _ => isFalse (by intro h; cases h; exact h1 rfl)
    | _, isFalse h2, _ => isFalse (by intro h; cases h; exact h2 rfl)
    | _, _, isFalse h3 => isFalse (by intro h; cases h; exact h3 rfl)
def XmlForest.decEq : (a b : XmlForest) → Decidable (a = b)
  | .nil, .nil => isTrue rfl
  | .nil, .cons _ _ => isFalse (by intro h; cases h)
  | .cons _ _, .nil => isFalse (by intro h; cases h)
  | .cons h1 t1, .cons h2 t2 =>
    match XmlNode.decEq h1 h2, XmlForest.decEq t1 t2 with
    | isTrue e1, isTrue e2 => isTrue (by rw [e1, e2])
    | isFalse e1, _ => isFalse (by intro h; cases h; exact e1 rfl)
    | _, isFalse e2 => isFalse (by intro h; cases h; exact e2 rfl)
end

instance : DecidableEq XmlNode := XmlNode.decEq

instance : DecidableEq XmlForest := XmlForest.decEq

def XmlNode.tag : XmlNode → String
  | .node t _ _ => t

def XmlNode.text : XmlNode → String
  | .node _ x _ => x

def XmlNode.children : XmlNode → XmlForest
  | .node _ _ c => c

def XmlForest.toList : XmlForest → List XmlNode
  | .nil => []
  | .cons h t => h :: t.toList

/-- Element.find(tag): first direct child carrying the tag, None when
there is none.  Python then raises AttributeError as soon as .find or
.text is taken on that None; the Option monad below propagates the
abort the same way. -/
def XmlNode.find (x : XmlNode) (t : String) : Option XmlNode :=
  x.children.toList.find? (fun c => c.tag == t)

mutual
/-- Element.iter(tag): the element itself and all its descendants
carrying the tag, in document order. -/
def XmlNode.iterTag (t : String) : XmlNode → List XmlNode
  | .node tg tx ch =>
      (if tg = t then [XmlNode.node tg tx ch] else []) ++ XmlForest.iterTag t ch
def XmlForest.iterTag (t : String) : XmlForest → List XmlNode
  | .nil => []
  | .cons h tl => XmlNode.iterTag t h ++ XmlForest.iterTag t tl
end

/-- Decimal digit value of a character, none for a non-digit. -/
def digitVal (c : Char) : Option Nat :=
  if c.isDigit then some (c.toNat - 48) else none

def digitsToNat (acc : Nat) : List Char → Option Nat
  | [] => some acc
  | c :: cs =>
    match digitVal c with
    | none => none
    | some d => digitsToNat (acc * 10 + d) cs

/-- The Python call int(s) on the decimal string of an integer: an
optional sign followed by at least one digit; anything else raises
ValueError, embedded as none.  (Python additionally strips whitespace
and accepts underscore separators; the texts the converter reads and
writes are plain decimal representations, for which the two agree.) -/
def parseInt (s : String) : Option Int :=
  match s.data with
  | [] => none
  | '-' :: cs =>
    match cs with
    | [] => none
    | _ => (digitsToNat 0 cs).map (fun n => -(n : Int))
  | cs => (digitsToNat 0 cs).map (fun n => (n : Int))

/-- Line 253: if label_name not in label_set: label_set.append(label_name). -/
def addLabel (ls : List String) (l : String) : List String :=
  if l ∈ ls then ls else ls ++ [l]

/-- Lines 252-272: the body of one object-loop iteration of
load_voc_ann, without the label_set update.  Every find that
Python would dereference on None is a bind, so a missing name, pose,
truncated, difficult, bndbox or corner element aborts, as does a
non-integer text under int(). -/
def findInt (x : XmlNode) (t : String) : Option Int := do
  let n ← x.find t
  parseInt n.text

def parseCornerBox (bndboxN : XmlNode) : Option CornerBox := do
  let xmin ← findInt bndboxN "xmin"
  let ymin ← findInt bndboxN "ymin"
  let xmax ← findInt bndboxN "xmax"
  let ymax ← findInt bndboxN "ymax"
  some { xmin := xmin, ymin := ymin, xmax := xmax, ymax := ymax }

def parseVocObject (o : XmlNode) : Option VocRegion := do
  let nameN ← o.find "name"
  let poseN ← o.find "pose"
  let truncated ← findInt o "truncated"
  let difficult ← findInt o "difficult"
  let bndboxN ← o.find "bndbox"
  let bbox ← parseCornerBox bndboxN
  some { label := nameN.text, pose := poseN.text, truncated := truncated,
         difficult := difficult, bbox := bbox }

/-- Lines 251-272: the object loop, threading label_set through the
objects of one file in order.  Python appends a new label to label_set
right after reading the name element and before the remaining fields;
since any later failure aborts the whole run, appending after a fully
parsed object is observationally the same. -/
def loadVocObjects (ls : List String) : List XmlNode → Option (List VocRegion × List String)
  | [] => some ([], ls)
  | o :: rest =>
    match parseVocObject o with
    | none => none
    | some r =>
      match loadVocObjects (addLabel ls r.label) rest with
      | none => none
      | some (restRegions, ls2) => some (r :: restRegions, ls2)

/-- Lines 233-273: parse one descriptor file.  Python evaluates
root.find('size') afresh on each of lines 241-243, and
obj.find('bndbox') afresh per corner, always with the same result; the
embedding binds each once. -/
def parseVocFile (ls : List String) (root : XmlNode) : Option (VocAnn × List String) := do
  let filenameN ← root.find "filename"
  let sizeN ← root.find "size"
  let width ← findInt sizeN "width"
  let height ← findInt sizeN "height"
  let depth ← findInt sizeN "depth"
  let (regions, ls1) ← loadVocObjects ls (XmlNode.iterTag "object" root)
  some ({ image_info := { filename := filenameN.text, width := width,
                          height := height, depth := depth },
          ann := regions }, ls1)

/-- Lines 229-274: load_voc_ann over the directory listing,
given as the already-parsed trees of the descriptor files in
enumeration order.  Returns (all_ann, label_set); any parse failure
aborts the whole run. -/
def loadVocFiles (ls : List String) : List XmlNode → Option (List VocAnn × List String)
  | [] => some ([], ls)
  | f :: rest => do
    let (a, ls1) ← parseVocFile ls f
    let (as1, ls2) ← loadVocFiles ls1 rest
    some (a :: as1, ls2)

def load_voc_ann (files : List XmlNode) : Option (List VocAnn × List String) :=
  loadVocFiles [] files

/-! ## voc2coco (lines 150-220)

The filesystem work of voc2coco is the two directory checks, the load,
and one json dump of the finished record; the record construction of
lines 164-216 is embedded below as a function of the loader output. -/

/-- Lines 169-176: one category per label_set entry, id the 1-based
position, supercategory null. -/
def catsOf (label_set : List String) : List CocoCategory :=
  label_set.enum.map (fun p =>
    { supercategory := none, id := (p.1 : Int) + 1, name := p.2 })

/-- Lines 189-192: the for/if/break loop, returning the id of the
first category whose name equals the label, none when no name
matches. -/
def resolveCategory (cats : List CocoCategory) (label : String) : Option Int :=
  (cats.find? (fun cat => cat.name == label)).map (fun cat => cat.id)

/-- The two locals of voc2coco that persist across loop iterations:
annotation_id (line 177), and category_id, which lines 189-192 assign
only on a successful lookup.  On a failed lookup the loop falls
through, so the variable silently keeps the value of the last
successful lookup; if there has never been one, line 206 reads an
unassigned variable and Python raises NameError, embedded as none. -/
structure BuildState where
  annotation_id : Int
  category_id : Option Int
deriving DecidableEq

/-- Lines 188-216: one iteration of the region loop: resolve the
category, convert the corner box to origin-plus-extent form, compute
the float area, append the annotation dict, increment annotation_id. -/
def processRegion (cats : List CocoCategory) (imgId : Int)
    (st : BuildState × List CocoAnnot) (r : VocRegion) :
    Option (BuildState × List CocoAnnot) :=
  let cid? :=
    match resolveCategory cats r.label with
    | some cid => some cid
    | none => st.1.category_id
  match cid? with
  | none => none
  | some cid =>
    let width := r.bbox.xmax - r.bbox.xmin
    let height := r.bbox.ymax - r.bbox.ymin
    let area := pyFloat (width * height)
    let bbox : CocoBox :=
      { xmin := r.bbox.xmin, ymin := r.bbox.ymin, w := width, h := height }
    some ({ annotation_id := st.1.annotation_id + 1, category_id := some cid },
          st.2 ++ [{ id := st.1.annotation_id, image_id := imgId, name := r.label,
                     category_id := cid, bbox := bbox, area := area,
                     segmentation := none, iscrowd := 0, pose := r.pose,
                     truncated := r.truncated, difficult := r.difficult }])

/-- Lines 178-216: one iteration of the image loop restricted to the
annotations (the image entry itself is position-determined, see
imagesOf). -/
def processImage (cats : List CocoCategory)
    (st : BuildState × List CocoAnnot) (p : Nat × VocAnn) :
    Option (BuildState × List CocoAnnot) :=
  p.2.ann.foldlM (processRegion cats (p.1 : Int)) st

/-- Lines 179-187: the images list; entry i carries the metadata of
the i-th per-image record and id = i. -/
def imagesOf (voc_ann : List VocAnn) : List CocoImage :=
  voc_ann.enum.map (fun p =>
    { file_name := p.2.image_info.filename, width := p.2.image_info.width,
      height := p.2.image_info.height, depth := p.2.image_info.depth,
      id := (p.1 : Int) })

/-- Lines 164-216: build the aggregate record from the loader
output. -/
def voc2cocoBuild (voc_ann : List VocAnn) (label_set : List String) : Option CocoAnn :=
  let cats := catsOf label_set
  match voc_ann.enum.foldlM (processImage cats)
      ({ annotation_id := 0, category_id := none }, []) with
  | none => none
  | some (_, annotations) =>
    some { images := imagesOf voc_ann, annotations := annotations, categories := cats }

/-- Lines 150-220 without the trailing json dump: voc2coco is the load
of line 162 followed by the record construction. -/
def voc2coco (files : List XmlNode) : Option CocoAnn :=
  match load_voc_ann files with
  | none => none
  | some (voc_ann, label_set) => voc2cocoBuild voc_ann label_set

/-! ## coco2voc (lines 35-147)

Lines 57-147 build, per image, one XML document whose text nodes are
Python str() of the field values, and write it under a name derived
from the image file name.  The document is embedded structurally: one
record per emitted object node and one per document, each text kept as
the string Python would place in the text node. -/

/-- One object node (lines 102-141): the literal type tag and the
str() texts of the annotation fields, the corner form recomputed as
xmax = xmin + w, ymax = ymin + h (lines 100-101). -/
structure XmlObjOut where
  type : String
  name : String
  pose : String
  truncated : String
  difficult : String
  xmin : String
  ymin : String
  xmax : String
  ymax : String
deriving DecidableEq

/-- One emitted document (lines 64-147): filename text, size texts,
and the object nodes in emission order. -/
structure XmlDocOut where
  filename : String
  width : String
  height : String
  depth : String
  objects : List XmlObjOut
deriving DecidableEq

/-- str.split(sep) for a one-character separator, over the character
list: splitting the empty string gives one empty part, and every
separator occurrence opens a new part. -/
def splitCharAux (sep : Char) : List Char → List (List Char)
  | [] => [[]]
  | c :: cs =>
    let rest := splitCharAux sep cs
    if c = sep then [] :: rest
    else
      match rest with
      | [] => [[c]]
      | h :: t => (c :: h) :: t

/-- Python filename.split('.') as a list of strings. -/
def splitDot (s : String) : List String :=
  (splitCharAux '.' s.data).map (fun l => String.mk l)

/-- Line 145: xml_name = filename.split('.')[0] + '.xml'; the Python
index [0] takes the part before the first dot (the whole name when
there is no dot; split always returns at least one part). -/
def xmlName (filename : String) : String :=
  ((splitDot filename).headD "") ++ ".xml"

/-- Lines 92-141: the object node built for one matched annotation. -/
def annToXmlObj (a : CocoAnnot) : XmlObjOut :=
  { type := "bndbox", name := a.name, pose := a.pose,
    truncated := toString a.truncated, difficult := toString a.difficult,
    xmin := toString a.bbox.xmin, ymin := toString a.bbox.ymin,
    xmax := toString (a.bbox.xmin + a.bbox.w),
    ymax := toString (a.bbox.ymin + a.bbox.h) }

/-- Lines 64-141: the document built for one image from its matched
annotations, in match order. -/
def imgToXmlDoc (img : CocoImage) (matched : List CocoAnnot) : XmlDocOut :=
  { filename := img.file_name, width := toString img.width,
    height := toString img.height, depth := toString img.depth,
    objects := matched.map annToXmlObj }

/-- Lines 57-147: one iteration of the image loop.  del_list collects
the annotations whose image_id equals the image id (lines 88-91); the
loop of lines 142-143 then calls list.remove on each, deleting the
first equal element from the pool (each is present, so the ValueError
branch of list.remove is unreachable); finally the document is written
(lines 145-147).  The state carries the remaining pool, the del_lists
so far, and the (file name, document) outputs so far. -/
def coco2vocStep
    (st : List CocoAnnot × List (List CocoAnnot) × List (String × XmlDocOut))
    (img : CocoImage) :
    List CocoAnnot × List (List CocoAnnot) × List (String × XmlDocOut) :=
  let pool := st.1
  let del_list := pool.filter (fun a => a.image_id == img.id)
  let pool1 := del_list.foldl (fun p d => p.erase d) pool
  (pool1, st.2.1 ++ [del_list],
   st.2.2 ++ [(xmlName img.file_name, imgToXmlDoc img del_list)])

/-- Lines 57-147: the image loop over the whole record. -/
def coco2vocProcess (c : CocoAnn) :
    List CocoAnnot × List (List CocoAnnot) × List (String × XmlDocOut) :=
  c.images.foldl coco2vocStep (c.annotations, [], [])

/-- The del_list of each image, in image order. -/
def coco2vocDelLists (c : CocoAnn) : List (List CocoAnnot) :=
  (coco2vocProcess c).2.1

/-- The emitted files: (name, document) per image, in image order. -/
def coco2vocOutputs (c : CocoAnn) : List (String × XmlDocOut) :=
  (coco2vocProcess c).2.2

/-! ## CLI driver (lines 26-32) and the coco2voc filesystem prelude
(lines 42-52) -/

inductive ConvCall where
  | voc2cocoCall
  | coco2vocCall
deriving DecidableEq

/-- Lines 26-32: main asserts that not both flags are set, then runs
each selected converter.  The result records the uncaught
AssertionError, or the list of converter invocations. -/
def mainDispatch (voc2cocoFlag coco2vocFlag : Bool) : Except String (List ConvCall) :=
  if voc2cocoFlag && coco2vocFlag then
    Except.error "Can not operate VOC to COCO and COCO to VOC simultaneously"
  else
    Except.ok ((if voc2cocoFlag then [ConvCall.voc2cocoCall] else []) ++
               (if coco2vocFlag then [ConvCall.coco2vocCall] else []))

inductive CocoVocError where
  | fileNotFound
  | notADirectory
deriving DecidableEq

/-- Lines 42-52 of coco2voc: when the destination path does not exist
it is created as a directory (os.mkdir), and only afterwards are the
source-is-a-file and destination-is-a-directory checks made.  Inputs:
whether dst exists, whether a pre-existing dst is a directory, whether
src is a file.  Output: whether a directory was created, and the error
raised, if any. -/
def coco2vocPrelude (dstExists dstIsDir srcIsFile : Bool) :
    Bool × Option CocoVocError :=
  let created := !dstExists
  let dstIsDirNow := if created then true else dstIsDir
  if !srcIsFile then (created, some CocoVocError.fileNotFound)
  else if !dstIsDirNow then (created, some CocoVocError.notADirectory)
  else (created, none)

/-! ## Reference functions

Transparent reshapings of the loops above, used to state and prove the
claims: sequences of labels and regions in discovery order, the
annotation list written out block by block, the pool evolution of
coco2voc written as repeated filtering, and two definitions that
follow the wording of the specification (firstOccurrences,
extensionReplacedXml) for comparison with what the code computes. -/

/-- All region labels of a dataset in discovery order: image order,
then within-image region order. -/
def allLabels (voc_ann : List VocAnn) : List String :=
  (voc_ann.map (fun a => a.ann.map (fun r => r.label))).flatten

/-- All regions of a dataset in discovery order. -/
def flatRegions (voc_ann : List VocAnn) : List VocRegion :=
  (voc_ann.map (fun a => a.ann)).flatten

/-- The label_set the reader accumulates, recomputed from its
records. -/
def labelSetOf (voc_ann : List VocAnn) : List String :=
  (allLabels voc_ann).foldl addLabel []

/-- Spec-side definition, following the specification's words: the
distinct labels in first-occurrence order (keep each label the first
time it appears, drop every later copy). -/
def firstOccurAux (seen : List String) : List String → List String
  | [] => []
  | x :: xs =>
    if x ∈ seen then firstOccurAux seen xs
    else x :: firstOccurAux (x :: seen) xs

/-- Spec-side definition: distinct labels in first-occurrence order. -/
def firstOccurrences (l : List String) : List String :=
  firstOccurAux [] l

/-- Dot-intercalation of name parts, inverse to splitDot. -/
def joinDot : List String → String
  | [] => ""
  | [x] => x
  | x :: xs => x ++ "." ++ joinDot xs

/-- Spec-side definition, following the specification's words: the
output file name is the image file name with its extension (the part
after the final dot) replaced by .xml. -/
def extensionReplacedXml (s : String) : String :=
  let parts := splitDot s
  if parts.length ≤ 1 then s ++ ".xml"
  else joinDot parts.dropLast ++ ".xml"

/-- The annotation the region loop appends for region r of image
imgId under annotation id aid, with the category id the lookup
delivers (total form; in a run coming from the reader the lookup
always succeeds). -/
def mkCocoAnnot (cats : List CocoCategory) (imgId aid : Int) (r : VocRegion) : CocoAnnot :=
  { id := aid, image_id := imgId, name := r.label,
    category_id := (resolveCategory cats r.label).getD 0,
    bbox := { xmin := r.bbox.xmin, ymin := r.bbox.ymin,
              w := r.bbox.xmax - r.bbox.xmin, h := r.bbox.ymax - r.bbox.ymin },
    area := pyFloat ((r.bbox.xmax - r.bbox.xmin) * (r.bbox.ymax - r.bbox.ymin)),
    segmentation := none, iscrowd := 0, pose := r.pose,
    truncated := r.truncated, difficult := r.difficult }

/-- The annotation block of one image: ids consecutive from aid. -/
def annListFor (cats : List CocoCategory) (imgId : Int) : Int → List VocRegion → List CocoAnnot
  | _, [] => []
  | aid, r :: rs => mkCocoAnnot cats imgId aid r :: annListFor cats imgId (aid + 1) rs

/-- The full annotation list: blocks of consecutive images, image ids
counting up from k, annotation ids counting up from aid. -/
def allAnnots (cats : List CocoCategory) : Nat → Int → List VocAnn → List CocoAnnot
  | _, _, [] => []
  | k, aid, a :: rest =>
    annListFor cats (k : Int) aid a.ann ++
    allAnnots cats (k + 1) (aid + a.ann.length) rest

/-- Consecutive integers: s, s+1, ..., s+n-1. -/
def rangeInts (s : Int) (n : Nat) : List Int :=
  List.map (fun k : Nat => s + (k : Int)) (List.range n)

/-- Placeholder image used only as the out-of-range default of
List.getD in statements about image positions. -/
def defaultCocoImage : CocoImage :=
  { file_name := "", width := 0, height := 0, depth := 0, id := 0 }

/-- Pool evolution of coco2voc: each image removes its matches from
the pool. -/
def poolAfter (pool : List CocoAnnot) : List CocoImage → List CocoAnnot
  | [] => pool
  | img :: rest =>
    poolAfter (pool.filter (fun a => !(a.image_id == img.id))) rest

/-- The del_list of each image, written as successive filters of the
pool. -/
def dlListsFor (pool : List CocoAnnot) : List CocoImage → List (List CocoAnnot)
  | [] => []
  | img :: rest =>
    pool.filter (fun a => a.image_id == img.id) ::
    dlListsFor (pool.filter (fun a => !(a.image_id == img.id))) rest

/-- The outputs of coco2voc, written as successive filters of the
pool. -/
def outsFor (pool : List CocoAnnot) : List CocoImage → List (String × XmlDocOut)
  | [] => []
  | img :: rest =>
    (xmlName img.file_name,
     imgToXmlDoc img (pool.filter (fun a => a.image_id == img.id))) ::
    outsFor (pool.filter (fun a => !(a.image_id == img.id))) rest

/-- The object node the round trip is expected to reproduce for a
reader region: the original values, serialized. -/
def regionToXmlObj (r : VocRegion) : XmlObjOut :=
  { type := "bndbox", name := r.label, pose := r.pose,
    truncated := toString r.truncated, difficult := toString r.difficult,
    xmin := toString r.bbox.xmin, ymin := toString r.bbox.ymin,
    xmax := toString r.bbox.xmax, ymax := toString r.bbox.ymax }

/-- The document the round trip is expected to reproduce for a reader
record: the original metadata and regions, serialized. -/
def roundTripDoc (a : VocAnn) : XmlDocOut :=
  { filename := a.image_info.filename, width := toString a.image_info.width,
    height := toString a.image_info.height, depth := toString a.image_info.depth,
    objects := a.ann.map regionToXmlObj }

/-- Required elements of one object node, as the reader dereferences
them: name, pose, truncated, difficult, bndbox and its four corners. -/
def objectElementMissing (obj : XmlNode) : Bool :=
  (obj.find "name").isNone || (obj.find "pose").isNone ||
  (obj.find "truncated").isNone || (obj.find "difficult").isNone ||
  (match obj.find "bndbox" with
   | none => true
   | some bb =>
     (bb.find "xmin").isNone || (bb.find "ymin").isNone ||
     (bb.find "xmax").isNone || (bb.find "ymax").isNone)

/-- Required elements of one descriptor file, as the reader
dereferences them: filename, size with width, height and depth, and
the object elements. -/
def requiredElementMissing (root : XmlNode) : Bool :=
  (root.find "filename").isNone ||
  (match root.find "size" with
   | none => true
   | some s =>
     (s.find "width").isNone || (s.find "height").isNone ||
     (s.find "depth").isNone) ||
  (XmlNode.iterTag "object" root).any objectElementMissing

/-! ## Concrete inputs used by witnesses and counterexamples -/

def forestOf : List XmlNode → XmlForest
  | [] => XmlForest.nil
  | x :: xs => XmlForest.cons x (forestOf xs)

/-- Descriptor file of the first scenario image: one region, label
cat, box (10, 10, 50, 60). -/
def xfile1 : XmlNode :=
  XmlNode.node "annotation" "" (forestOf
    [XmlNode.node "filename" "img1.jpg" (forestOf []),
     XmlNode.node "size" "" (forestOf
       [XmlNode.node "width" "100" (forestOf []),
        XmlNode.node "height" "120" (forestOf []),
        XmlNode.node "depth" "3" (forestOf [])]),
     XmlNode.node "object" "" (forestOf
       [XmlNode.node "name" "cat" (forestOf []),
        XmlNode.node "pose" "Unspecified" (forestOf []),
        XmlNode.node "truncated" "0" (forestOf []),
        XmlNode.node "difficult" "0" (forestOf []),
        XmlNode.node "bndbox" "" (forestOf
          [XmlNode.node "xmin" "10" (forestOf []),
           XmlNode.node "ymin" "10" (forestOf []),
           XmlNode.node "xmax" "50" (forestOf []),
           XmlNode.node "ymax" "60" (forestOf [])])])])

/-- Descriptor file of the second scenario image: no regions. -/
def xfile2 : XmlNode :=
  XmlNode.node "annotation" "" (forestOf
    [XmlNode.node "filename" "img2.jpg" (forestOf []),
     XmlNode.node "size" "" (forestOf
       [XmlNode.node "width" "80" (forestOf []),
        XmlNode.node "height" "60" (forestOf []),
        XmlNode.node "depth" "3" (forestOf [])])])

/-- The reader output for the two scenario files. -/
def va1 : List VocAnn :=
  [{ image_info := { filename := "img1.jpg", width := 100, height := 120, depth := 3 },
     ann := [{ label := "cat", pose := "Unspecified", truncated := 0, difficult := 0,
               bbox := { xmin := 10, ymin := 10, xmax := 50, ymax := 60 } }] },
   { image_info := { filename := "img2.jpg", width := 80, height := 60, depth := 3 },
     ann := [] }]

/-- Descriptor file whose single region has xmax equal to 2^53 + 1,
so that the area product 2^53 + 1 is not a representable double. -/
def xbig : XmlNode :=
  XmlNode.node "annotation" "" (forestOf
    [XmlNode.node "filename" "big.jpg" (forestOf []),
     XmlNode.node "size" "" (forestOf
       [XmlNode.node "width" "9007199254740993" (forestOf []),
        XmlNode.node "height" "1" (forestOf []),
        XmlNode.node "depth" "3" (forestOf [])]),
     XmlNode.node "object" "" (forestOf
       [XmlNode.node "name" "big" (forestOf []),
        XmlNode.node "pose" "Unspecified" (forestOf []),
        XmlNode.node "truncated" "0" (forestOf []),
        XmlNode.node "difficult" "0" (forestOf []),
        XmlNode.node "bndbox" "" (forestOf
          [XmlNode.node "xmin" "0" (forestOf []),
           XmlNode.node "ymin" "0" (forestOf []),
           XmlNode.node "xmax" "9007199254740993" (forestOf []),
           XmlNode.node "ymax" "1" (forestOf [])])])])

/-- The reader output for the xbig file. -/
def vaBig : List VocAnn :=
  [{ image_info := { filename := "big.jpg", width := 9007199254740993, height := 1, depth := 3 },
     ann := [{ label := "big", pose := "Unspecified", truncated := 0, difficult := 0,
               bbox := { xmin := 0, ymin := 0, xmax := 9007199254740993, ymax := 1 } }] }]

/-- Input exercising the failed category lookup: the second region's
label is absent from the label set. -/
def va8 : List VocAnn :=
  [{ image_info := { filename := "img.jpg", width := 10, height := 10, depth := 3 },
     ann := [{ label := "a", pose := "p", truncated := 0, difficult := 0,
               bbox := { xmin := 0, ymin := 0, xmax := 1, ymax := 1 } },
             { label := "b", pose := "p", truncated := 0, difficult := 0,
               bbox := { xmin := 2, ymin := 2, xmax := 3, ymax := 3 } }] }]

/-- The aggregate record voc2coco produces for the two scenario
files. -/
def c1Rec : CocoAnn :=
  { images := [{ file_name := "img1.jpg", width := 100, height := 120, depth := 3, id := 0 },
               { file_name := "img2.jpg", width := 80, height := 60, depth := 3, id := 1 }],
    annotations := [{ id := 0, image_id := 0, name := "cat", category_id := 1,
                      bbox := { xmin := 10, ymin := 10, w := 40, h := 50 }, area := 2000,
                      segmentation := none, iscrowd := 0, pose := "Unspecified",
                      truncated := 0, difficult := 0 }],
    categories := [{ supercategory := none, id := 1, name := "cat" }] }

/-- Descriptor file missing its required size element. -/
def xfileMissingSize : XmlNode :=
  XmlNode.node "annotation" "" (forestOf
    [XmlNode.node "filename" "broken.jpg" (forestOf [])])

/-- Aggregate record whose single image has a file name carrying two
dots. -/
def cRec5 : CocoAnn :=
  { images := [{ file_name := "a.b.jpg", width := 10, height := 10, depth := 3, id := 0 }],
    annotations := [], categories := [] }

/-- Aggregate record with two images sharing id 0 and one annotation
with image_id 0. -/
def cRec6 : CocoAnn :=
  { images := [{ file_name := "x.jpg", width := 10, height := 10, depth := 3, id := 0 },
               { file_name := "y.jpg", width := 20, height := 20, depth := 3, id := 0 }],
    annotations := [{ id := 0, image_id := 0, name := "cat", category_id := 1,
                      bbox := { xmin := 1, ymin := 1, w := 2, h := 2 }, area := 4,
                      segmentation := none, iscrowd := 0, pose := "p",
                      truncated := 0, difficult := 0 }],
    categories := [{ supercategory := none, id := 1, name := "cat" }] }

/-! ## Lemmas: label accumulation and coherence of the reader -/

theorem mem_addLabel {ls : List String} {l y : String} :
    y ∈ addLabel ls l ↔ y ∈ ls ∨ y = l := by
  by_cases h : l ∈ ls <;> simp [addLabel, h]
  rintro rfl
  exact h

theorem mem_foldl_addLabel_of_mem_acc {l : List String} :
    ∀ {acc x}, x ∈ acc → x ∈ l.foldl addLabel acc := by
  induction l with
  | nil => intro acc x h; simpa using h
  | cons y ys ih =>
    intro acc x h
    simp only [List.foldl_cons]
    exact ih (mem_addLabel.mpr (Or.inl h))

theorem mem_foldl_addLabel_of_mem {l : List String} :
    ∀ {acc x}, x ∈ l → x ∈ l.foldl addLabel acc := by
  induction l with
  | nil => intro acc x h; cases h
  | cons y ys ih =>
    intro acc x h
    simp only [List.foldl_cons]
    rcases List.mem_cons.mp h with rfl | h
    · exact mem_foldl_addLabel_of_mem_acc (mem_addLabel.mpr (Or.inr rfl))
    · exact ih h

theorem foldl_addLabel_eq_append (l : List String) :
    ∀ acc seen, (∀ x, x ∈ seen ↔ x ∈ acc) →
      l.foldl addLabel acc = acc ++ firstOccurAux seen l := by
  induction l with
  | nil => intro acc seen _; simp [firstOccurAux]
  | cons x xs ih =>
    intro acc seen hiff
    by_cases hx : x ∈ seen
    · have hacc : x ∈ acc := (hiff x).mp hx
      have : addLabel acc x = acc := by simp [addLabel, hacc]
      simp only [List.foldl_cons, this, firstOccurAux, if_pos hx]
      exact ih acc seen hiff
    · have hacc : x ∉ acc := fun h => hx ((hiff x).mpr h)
      have : addLabel acc x = acc ++ [x] := by simp [addLabel, hacc]
      simp only [List.foldl_cons, this, firstOccurAux, if_neg hx]
      rw [ih (acc ++ [x]) (x :: seen) ?_, List.append_assoc]
      · simp
      · intro y
        simp only [List.mem_cons, List.mem_append, List.mem_singleton]
        rw [hiff y]
        tauto

theorem foldl_addLabel_nil (l : List String) :
    l.foldl addLabel [] = firstOccurrences l := by
  have := foldl_addLabel_eq_append l [] [] (by simp)
  simpa [firstOccurrences] using this

theorem mem_firstOccurAux {l : List String} :
    ∀ {seen y}, y ∈ firstOccurAux seen l ↔ y ∈ l ∧ y ∉ seen := by
  induction l with
  | nil => intro seen y; simp [firstOccurAux]
  | cons x xs ih =>
    intro seen y
    by_cases hx : x ∈ seen
    · rw [firstOccurAux, if_pos hx, ih]
      simp only [List.mem_cons]
      constructor
      · tauto
      · rintro ⟨rfl | hy, hs⟩
        · exact absurd hx hs
        · exact ⟨hy, hs⟩
    · rw [firstOccurAux, if_neg hx]
      simp only [List.mem_cons, ih]
      constructor
      · rintro (rfl | ⟨hy, hs⟩)
        · exact ⟨Or.inl rfl, hx⟩
        · exact ⟨Or.inr hy, fun h => hs (Or.inr h)⟩
      · rintro ⟨rfl | hy, hs⟩
        · exact Or.inl rfl
        · by_cases hyx : y = x
          · exact Or.inl hyx
          · refine Or.inr ⟨hy, fun h => ?_⟩
            rcases h with h1 | h1
            · exact hyx h1
            · exact hs h1

theorem nodup_firstOccurAux {l : List String} :
    ∀ {seen}, (firstOccurAux seen l).Nodup := by
  induction l with
  | nil => intro seen; simp [firstOccurAux]
  | cons x xs ih =>
    intro seen
    by_cases hx : x ∈ seen
    · rw [firstOccurAux, if_pos hx]
      exact ih
    · rw [firstOccurAux, if_neg hx]
      refine List.Nodup.cons ?_ ih
      intro hmem
      exact (mem_firstOccurAux.mp hmem).2 (List.mem_cons_self x seen)

theorem nodup_firstOccurrences (l : List String) : (firstOccurrences l).Nodup :=
  nodup_firstOccurAux

theorem mem_firstOccurrences {l : List String} {y : String} :
    y ∈ firstOccurrences l ↔ y ∈ l := by
  rw [firstOccurrences, mem_firstOccurAux]
  simp

theorem allLabels_cons (a : VocAnn) (rest : List VocAnn) :
    allLabels (a :: rest) = a.ann.map (fun r => r.label) ++ allLabels rest := by
  simp [allLabels]

theorem flatRegions_cons (a : VocAnn) (rest : List VocAnn) :
    flatRegions (a :: rest) = a.ann ++ flatRegions rest := by
  simp [flatRegions]

theorem allLabels_eq_map_flatRegions (va : List VocAnn) :
    allLabels va = (flatRegions va).map (fun r => r.label) := by
  induction va with
  | nil => simp [allLabels, flatRegions]
  | cons a rest ih => simp [allLabels_cons, flatRegions_cons, ih]

theorem loadVocObjects_labels {objs : List XmlNode} :
    ∀ {ls rs ls'}, loadVocObjects ls objs = some (rs, ls') →
      ls' = (rs.map (fun r => r.label)).foldl addLabel ls := by
  induction objs with
  | nil =>
    intro ls rs ls' h
    simp only [loadVocObjects, Option.some.injEq, Prod.mk.injEq] at h
    rw [← h.1, ← h.2]
    simp
  | cons o rest ih =>
    intro ls rs ls' h
    cases hp : parseVocObject o with
    | none => simp [loadVocObjects, hp] at h
    | some r =>
      cases hrec : loadVocObjects (addLabel ls r.label) rest with
      | none => simp [loadVocObjects, hp, hrec] at h
      | some p =>
        obtain ⟨restRegions, ls2⟩ := p
        simp only [loadVocObjects, hp, hrec, Option.some.injEq, Prod.mk.injEq] at h
        rw [← h.1, ← h.2]
        simpa using ih hrec

theorem parseVocFile_labels {ls : List String} {root : XmlNode} {a : VocAnn}
    {ls' : List String} (h : parseVocFile ls root = some (a, ls')) :
    ls' = (a.ann.map (fun r => r.label)).foldl addLabel ls := by
  cases h1 : root.find "filename" with
  | none => simp [parseVocFile, h1] at h
  | some filenameN =>
    cases h2 : root.find "size" with
    | none => simp [parseVocFile, h1, h2] at h
    | some sizeN =>
      cases h3 : findInt sizeN "width" with
      | none => simp [parseVocFile, h1, h2, h3] at h
      | some width =>
        cases h4 : findInt sizeN "height" with
        | none => simp [parseVocFile, h1, h2, h3, h4] at h
        | some height =>
          cases h5 : findInt sizeN "depth" with
          | none => simp [parseVocFile, h1, h2, h3, h4, h5] at h
          | some depth =>
            cases h6 : loadVocObjects ls (XmlNode.iterTag "object" root) with
            | none => simp [parseVocFile, h1, h2, h3, h4, h5, h6] at h
            | some p =>
              obtain ⟨regions, ls1⟩ := p
              simp only [parseVocFile, h1, h2, h3, h4, h5, h6, bind, Option.some_bind,
                Option.some.injEq, Prod.mk.injEq] at h
              rw [← h.1, ← h.2]
              simpa using loadVocObjects_labels h6

theorem loadVocFiles_labels {files : List XmlNode} :
    ∀ {ls va ls'}, loadVocFiles ls files = some (va, ls') →
      ls' = (allLabels va).foldl addLabel ls := by
  induction files with
  | nil =>
    intro ls va ls' h
    simp only [loadVocFiles, Option.some.injEq, Prod.mk.injEq] at h
    rw [← h.1, ← h.2]
    simp [allLabels]
  | cons f rest ih =>
    intro ls va ls' h
    cases hf : parseVocFile ls f with
    | none => simp [loadVocFiles, hf] at h
    | some p =>
      obtain ⟨a, ls1⟩ := p
      cases hrec : loadVocFiles ls1 rest with
      | none => simp [loadVocFiles, hf, hrec] at h
      | some q =>
        obtain ⟨as1, ls2⟩ := q
        simp only [loadVocFiles, hf, hrec, bind, Option.some_bind, Option.some.injEq,
          Prod.mk.injEq] at h
        rw [← h.1, ← h.2]
        rw [allLabels_cons, List.foldl_append, ← parseVocFile_labels hf]
        exact ih hrec

theorem load_voc_ann_labels {files : List XmlNode} {va : List VocAnn}
    {ls : List String} (h : load_voc_ann files = some (va, ls)) :
    ls = firstOccurrences (allLabels va) := by
  rw [load_voc_ann] at h
  rw [loadVocFiles_labels h, foldl_addLabel_nil]

theorem load_voc_ann_labels_covered {files : List XmlNode}
    {va : List VocAnn} {ls : List String}
    (h : load_voc_ann files = some (va, ls)) :
    ∀ r ∈ flatRegions va, r.label ∈ ls := by
  intro r hr
  rw [load_voc_ann] at h
  rw [loadVocFiles_labels h]
  apply mem_foldl_addLabel_of_mem
  rw [allLabels_eq_map_flatRegions]
  exact List.mem_map_of_mem _ hr

/-! ## Lemmas: the categories table and the category lookup -/

theorem catsOf_map_name (ls : List String) :
    (catsOf ls).map (fun c => c.name) = ls := by
  rw [catsOf, List.map_map]
  have : ((fun c : CocoCategory => c.name) ∘
      (fun p : Nat × String =>
        ({ supercategory := none, id := (p.1 : Int) + 1, name := p.2 } : CocoCategory))) =
      Prod.snd := by
    funext p
    rfl
  rw [this, List.enum_map_snd]

theorem catsOf_map_id (ls : List String) :
    (catsOf ls).map (fun c => c.id) = rangeInts 1 ls.length := by
  rw [catsOf, List.map_map]
  have h1 : ((fun c : CocoCategory => c.id) ∘
      (fun p : Nat × String =>
        ({ supercategory := none, id := (p.1 : Int) + 1, name := p.2 } : CocoCategory))) =
      ((fun n : Nat => (n : Int) + 1) ∘ Prod.fst) := by
    funext p
    rfl
  rw [h1, ← List.map_map, List.enum_map_fst, rangeInts]
  apply List.map_congr_left
  intro k _
  exact add_comm ((k : Int)) 1

theorem rangeInts_succ (s : Int) (n : Nat) :
    rangeInts s (n + 1) = s :: rangeInts (s + 1) n := by
  rw [rangeInts, rangeInts, List.range_succ_eq_map, List.map_cons, List.map_map]
  congr 1
  · simp
  · apply List.map_congr_left
    intro k _
    simp only [Function.comp_apply]
    push_cast
    ring

theorem resolveCategory_isSome {ls : List String} {label : String}
    (h : label ∈ ls) : (resolveCategory (catsOf ls) label).isSome = true := by
  have hex : ∃ cat ∈ catsOf ls, (cat.name == label) = true := by
    have : label ∈ (catsOf ls).map (fun c => c.name) := by
      rw [catsOf_map_name]
      exact h
    obtain ⟨cat, hcat, hname⟩ := List.mem_map.mp this
    exact ⟨cat, hcat, by simp [hname]⟩
  have hs := List.find?_isSome.mpr hex
  rw [resolveCategory]
  cases hf : (catsOf ls).find? (fun cat => cat.name == label) with
  | none => rw [hf] at hs; cases hs
  | some cat => rfl

theorem resolveCategory_spec {cats : List CocoCategory} {label : String} {cid : Int}
    (h : resolveCategory cats label = some cid) :
    ∃ cat ∈ cats, cat.name = label ∧ cat.id = cid := by
  rw [resolveCategory] at h
  cases hf : cats.find? (fun cat => cat.name == label) with
  | none => rw [hf] at h; cases h
  | some cat =>
    rw [hf] at h
    refine ⟨cat, List.mem_of_find?_eq_some hf, ?_, ?_⟩
    · have := List.find?_some hf
      simpa using this
    · simpa using h

/-! ## Lemmas: the region and image loops of voc2coco -/

theorem processRegion_some {cats : List CocoCategory} {imgId : Int}
    {st : BuildState × List CocoAnnot} {r : VocRegion}
    (h : (resolveCategory cats r.label).isSome = true) :
    processRegion cats imgId st r =
      some ({ annotation_id := st.1.annotation_id + 1,
              category_id := some ((resolveCategory cats r.label).getD 0) },
            st.2 ++ [mkCocoAnnot cats imgId st.1.annotation_id r]) := by
  obtain ⟨cid, hcid⟩ := Option.isSome_iff_exists.mp h
  simp [processRegion, hcid, mkCocoAnnot]

theorem foldlM_processRegion {cats : List CocoCategory} {imgId : Int}
    {regs : List VocRegion}
    (h : ∀ r ∈ regs, (resolveCategory cats r.label).isSome = true) :
    ∀ (aid : Int) (cs : Option Int) (acc : List CocoAnnot), ∃ cs',
      regs.foldlM (processRegion cats imgId)
          ({ annotation_id := aid, category_id := cs }, acc) =
        some ({ annotation_id := aid + (regs.length : Int), category_id := cs' },
              acc ++ annListFor cats imgId aid regs) := by
  induction regs with
  | nil =>
    intro aid cs acc
    exact ⟨cs, by simp [annListFor]⟩
  | cons r rs ih =>
    intro aid cs acc
    have hr : (resolveCategory cats r.label).isSome = true := h r (List.mem_cons_self r rs)
    have hrs : ∀ x ∈ rs, (resolveCategory cats x.label).isSome = true :=
      fun x hx => h x (List.mem_cons_of_mem r hx)
    obtain ⟨cs', hcs'⟩ := ih hrs (aid + 1)
      (some ((resolveCategory cats r.label).getD 0)) (acc ++ [mkCocoAnnot cats imgId aid r])
    refine ⟨cs', ?_⟩
    rw [List.foldlM_cons, processRegion_some hr]
    simp only [bind, Option.some_bind]
    rw [hcs', annListFor, List.append_assoc]
    have harith : aid + 1 + (rs.length : Int) = aid + ((r :: rs).length : Int) := by
      push_cast [List.length_cons]
      ring
    rw [harith]
    rfl

theorem foldlM_processImage {cats : List CocoCategory} {va : List VocAnn}
    (h : ∀ r ∈ flatRegions va, (resolveCategory cats r.label).isSome = true) :
    ∀ (k : Nat) (aid : Int) (cs : Option Int) (acc : List CocoAnnot), ∃ cs',
      (va.enumFrom k).foldlM (processImage cats)
          ({ annotation_id := aid, category_id := cs }, acc) =
        some ({ annotation_id := aid + ((flatRegions va).length : Int),
                category_id := cs' },
              acc ++ allAnnots cats k aid va) := by
  induction va with
  | nil =>
    intro k aid cs acc
    exact ⟨cs, by simp [allAnnots, flatRegions]⟩
  | cons a rest ih =>
    intro k aid cs acc
    have ha : ∀ r ∈ a.ann, (resolveCategory cats r.label).isSome = true := by
      intro r hr
      exact h r (by rw [flatRegions_cons]; exact List.mem_append_left _ hr)
    have hrest : ∀ r ∈ flatRegions rest, (resolveCategory cats r.label).isSome = true := by
      intro r hr
      exact h r (by rw [flatRegions_cons]; exact List.mem_append_right _ hr)
    obtain ⟨cs1, hcs1⟩ := foldlM_processRegion ha aid cs acc
    obtain ⟨cs2, hcs2⟩ := ih hrest (k + 1) (aid + (a.ann.length : Int)) cs1
      (acc ++ annListFor cats (k : Int) aid a.ann)
    refine ⟨cs2, ?_⟩
    rw [List.enumFrom_cons, List.foldlM_cons]
    have hpi : processImage cats ({ annotation_id := aid, category_id := cs }, acc) (k, a) =
        some ({ annotation_id := aid + (a.ann.length : Int), category_id := cs1 },
              acc ++ annListFor cats (k : Int) aid a.ann) := hcs1
    rw [hpi]
    simp only [bind, Option.some_bind]
    rw [hcs2, allAnnots, List.append_assoc]
    have harith : aid + (a.ann.length : Int) + ((flatRegions rest).length : Int) =
        aid + ((flatRegions (a :: rest)).length : Int) := by
      rw [flatRegions_cons]
      push_cast [List.length_append]
      ring
    rw [harith]

theorem voc2cocoBuild_eq {va : List VocAnn} {ls : List String}
    (h : ∀ r ∈ flatRegions va, r.label ∈ ls) :
    voc2cocoBuild va ls =
      some { images := imagesOf va,
             annotations := allAnnots (catsOf ls) 0 0 va,
             categories := catsOf ls } := by
  have hsome : ∀ r ∈ flatRegions va, (resolveCategory (catsOf ls) r.label).isSome = true :=
    fun r hr => resolveCategory_isSome (h r hr)
  obtain ⟨cs', hcs'⟩ := foldlM_processImage hsome 0 0 none []
  have henum : va.enum = va.enumFrom 0 := rfl
  simp only [voc2cocoBuild, henum, hcs']
  simp

theorem voc2coco_eq {files : List XmlNode} {va : List VocAnn} {ls : List String}
    (hl : load_voc_ann files = some (va, ls)) :
    voc2coco files =
      some { images := imagesOf va,
             annotations := allAnnots (catsOf ls) 0 0 va,
             categories := catsOf ls } := by
  rw [voc2coco, hl]
  exact voc2cocoBuild_eq (load_voc_ann_labels_covered hl)

/-! ## Lemmas: shape of the produced annotation list -/

theorem annListFor_map_proj {α : Type} (cats : List CocoCategory) (imgId : Int)
    (f : CocoAnnot → α) (g : VocRegion → α)
    (hfg : ∀ (aid : Int) (r : VocRegion), f (mkCocoAnnot cats imgId aid r) = g r) :
    ∀ (aid : Int) (regs : List VocRegion),
      (annListFor cats imgId aid regs).map f = regs.map g := by
  intro aid regs
  induction regs generalizing aid with
  | nil => simp [annListFor]
  | cons r rs ih => simp [annListFor, hfg, ih]

theorem allAnnots_map_proj {α : Type} (cats : List CocoCategory)
    (f : CocoAnnot → α) (g : VocRegion → α)
    (hfg : ∀ (imgId aid : Int) (r : VocRegion), f (mkCocoAnnot cats imgId aid r) = g r) :
    ∀ (k : Nat) (aid : Int) (va : List VocAnn),
      (allAnnots cats k aid va).map f = (flatRegions va).map g := by
  intro k aid va
  induction va generalizing k aid with
  | nil => simp [allAnnots, flatRegions]
  | cons a rest ih =>
    rw [allAnnots, flatRegions_cons, List.map_append, List.map_append,
      annListFor_map_proj cats (k : Int) f g (hfg (k : Int)), ih]

theorem annListFor_map_id (cats : List CocoCategory) (imgId : Int) :
    ∀ (aid : Int) (regs : List VocRegion),
      (annListFor cats imgId aid regs).map (fun a => a.id) = rangeInts aid regs.length := by
  intro aid regs
  induction regs generalizing aid with
  | nil => simp [annListFor, rangeInts]
  | cons r rs ih =>
    rw [annListFor, List.map_cons, ih, List.length_cons, rangeInts_succ]
    rfl

theorem rangeInts_append (s : Int) (m n : Nat) :
    rangeInts s (m + n) = rangeInts s m ++ rangeInts (s + (m : Int)) n := by
  rw [rangeInts, List.range_add, List.map_append, List.map_map]
  congr 1
  apply List.map_congr_left
  intro k _
  simp only [Function.comp_apply]
  push_cast
  ring

theorem allAnnots_map_id (cats : List CocoCategory) :
    ∀ (k : Nat) (aid : Int) (va : List VocAnn),
      (allAnnots cats k aid va).map (fun a => a.id) =
        rangeInts aid (flatRegions va).length := by
  intro k aid va
  induction va generalizing k aid with
  | nil => simp [allAnnots, flatRegions, rangeInts]
  | cons a rest ih =>
    rw [allAnnots, List.map_append, annListFor_map_id, ih, flatRegions_cons,
      List.length_append, rangeInts_append]

theorem nodup_rangeInts (s : Int) (n : Nat) : (rangeInts s n).Nodup := by
  rw [rangeInts]
  refine List.Nodup.map ?_ (List.nodup_range n)
  intro a b hab
  have h2 := add_left_cancel hab
  exact_mod_cast h2

theorem mem_annListFor_image_id {cats : List CocoCategory} {imgId : Int} :
    ∀ {aid : Int} {regs : List VocRegion} {a : CocoAnnot},
      a ∈ annListFor cats imgId aid regs → a.image_id = imgId := by
  intro aid regs
  induction regs generalizing aid with
  | nil => intro a h; simp [annListFor] at h
  | cons r rs ih =>
    intro a h
    rw [annListFor, List.mem_cons] at h
    rcases h with rfl | h
    · rfl
    · exact ih h

theorem mem_allAnnots_image_id_ge {cats : List CocoCategory} :
    ∀ {k : Nat} {aid : Int} {va : List VocAnn} {a : CocoAnnot},
      a ∈ allAnnots cats k aid va → (k : Int) ≤ a.image_id := by
  intro k aid va
  induction va generalizing k aid with
  | nil => intro a h; simp [allAnnots] at h
  | cons x rest ih =>
    intro a h
    rw [allAnnots, List.mem_append] at h
    rcases h with h | h
    · rw [mem_annListFor_image_id h]
    · have := ih h
      omega

theorem filter_allAnnots_head (cats : List CocoCategory) (x : VocAnn)
    (rest : List VocAnn) (k : Nat) (aid : Int) :
    (allAnnots cats k aid (x :: rest)).filter (fun a => a.image_id == (k : Int)) =
      annListFor cats (k : Int) aid x.ann := by
  rw [allAnnots, List.filter_append]
  have h1 : (annListFor cats (k : Int) aid x.ann).filter
      (fun a => a.image_id == (k : Int)) = annListFor cats (k : Int) aid x.ann := by
    apply List.filter_eq_self.mpr
    intro a ha
    simp [mem_annListFor_image_id ha]
  have h2 : (allAnnots cats (k + 1) (aid + (x.ann.length : Int)) rest).filter
      (fun a => a.image_id == (k : Int)) = [] := by
    apply List.filter_eq_nil_iff.mpr
    intro a ha
    have := mem_allAnnots_image_id_ge ha
    simp only [beq_iff_eq]
    push_cast at this
    omega
  rw [h1, h2, List.append_nil]

theorem filter_not_allAnnots_head (cats : List CocoCategory) (x : VocAnn)
    (rest : List VocAnn) (k : Nat) (aid : Int) :
    (allAnnots cats k aid (x :: rest)).filter (fun a => !(a.image_id == (k : Int))) =
      allAnnots cats (k + 1) (aid + (x.ann.length : Int)) rest := by
  rw [allAnnots, List.filter_append]
  have h1 : (annListFor cats (k : Int) aid x.ann).filter
      (fun a => !(a.image_id == (k : Int))) = [] := by
    apply List.filter_eq_nil_iff.mpr
    intro a ha
    simp [mem_annListFor_image_id ha]
  have h2 : (allAnnots cats (k + 1) (aid + (x.ann.length : Int)) rest).filter
      (fun a => !(a.image_id == (k : Int))) =
      allAnnots cats (k + 1) (aid + (x.ann.length : Int)) rest := by
    apply List.filter_eq_self.mpr
    intro a ha
    have := mem_allAnnots_image_id_ge ha
    simp only [Bool.not_eq_true', beq_eq_false_iff_ne, ne_eq]
    push_cast at this
    omega
  rw [h1, h2, List.nil_append]

/-! ## Lemmas: the removal loop and the image loop of coco2voc -/

theorem foldl_erase_of_not {f : CocoAnnot → Bool} :
    ∀ {dl : List CocoAnnot}, (∀ y ∈ dl, f y = true) →
      ∀ {x : CocoAnnot}, f x = false → ∀ (pl : List CocoAnnot),
        dl.foldl (fun l d => l.erase d) (x :: pl) =
          x :: dl.foldl (fun l d => l.erase d) pl := by
  intro dl
  induction dl with
  | nil => intro _ x _ pl; rfl
  | cons y ys ih =>
    intro hdl x hx pl
    have hy : f y = true := hdl y (List.mem_cons_self y ys)
    have hxy : ¬((x == y) = true) := by
      simp only [beq_iff_eq]
      rintro rfl
      rw [hy] at hx
      cases hx
    rw [List.foldl_cons, List.foldl_cons, List.erase_cons_tail hxy]
    exact ih (fun z hz => hdl z (List.mem_cons_of_mem y hz)) hx (pl.erase y)

theorem foldl_erase_filter (f : CocoAnnot → Bool) :
    ∀ (p : List CocoAnnot),
      (p.filter f).foldl (fun l d => l.erase d) p = p.filter (fun a => !(f a)) := by
  intro p
  induction p with
  | nil => rfl
  | cons x p' ih =>
    by_cases hx : f x = true
    · rw [List.filter_cons_of_pos hx, List.foldl_cons, List.erase_cons_head, ih,
        List.filter_cons_of_neg (by simp [hx])]
    · have hx' : f x = false := by simp at hx; exact hx
      rw [List.filter_cons_of_neg (by simp [hx']),
        foldl_erase_of_not (fun y hy => List.of_mem_filter hy) hx', ih,
        List.filter_cons_of_pos (by simp [hx'])]

theorem coco2voc_foldl (imgs : List CocoImage) :
    ∀ (pool : List CocoAnnot) (dls : List (List CocoAnnot))
      (outs : List (String × XmlDocOut)),
      imgs.foldl coco2vocStep (pool, dls, outs) =
        (poolAfter pool imgs, dls ++ dlListsFor pool imgs,
         outs ++ outsFor pool imgs) := by
  induction imgs with
  | nil => intro pool dls outs; simp [poolAfter, dlListsFor, outsFor]
  | cons img rest ih =>
    intro pool dls outs
    rw [List.foldl_cons]
    have hstep : coco2vocStep (pool, dls, outs) img =
        (pool.filter (fun a => !(a.image_id == img.id)),
         dls ++ [pool.filter (fun a => a.image_id == img.id)],
         outs ++ [(xmlName img.file_name,
                   imgToXmlDoc img (pool.filter (fun a => a.image_id == img.id)))]) := by
      simp only [coco2vocStep, foldl_erase_filter]
    rw [hstep, ih, poolAfter, dlListsFor, outsFor, List.append_assoc, List.append_assoc]
    rfl

theorem coco2vocDelLists_eq (c : CocoAnn) :
    coco2vocDelLists c = dlListsFor c.annotations c.images := by
  rw [coco2vocDelLists, coco2vocProcess, coco2voc_foldl]
  rfl

theorem coco2vocOutputs_eq (c : CocoAnn) :
    coco2vocOutputs c = outsFor c.annotations c.images := by
  rw [coco2vocOutputs, coco2vocProcess, coco2voc_foldl]
  rfl

theorem dlListsFor_length : ∀ (imgs : List CocoImage) (pool : List CocoAnnot),
    (dlListsFor pool imgs).length = imgs.length := by
  intro imgs
  induction imgs with
  | nil => intro pool; rfl
  | cons img rest ih => intro pool; rw [dlListsFor, List.length_cons, ih, List.length_cons]

theorem outsFor_length : ∀ (imgs : List CocoImage) (pool : List CocoAnnot),
    (outsFor pool imgs).length = imgs.length := by
  intro imgs
  induction imgs with
  | nil => intro pool; rfl
  | cons img rest ih => intro pool; rw [outsFor, List.length_cons, ih, List.length_cons]

theorem outsFor_map_fst : ∀ (imgs : List CocoImage) (pool : List CocoAnnot),
    (outsFor pool imgs).map Prod.fst = imgs.map (fun img => xmlName img.file_name) := by
  intro imgs
  induction imgs with
  | nil => intro pool; rfl
  | cons img rest ih => intro pool; rw [outsFor, List.map_cons, ih, List.map_cons]

theorem count_filter_not_add (a : CocoAnnot) (f : CocoAnnot → Bool) :
    ∀ (l : List CocoAnnot),
      (l.filter f).count a + (l.filter (fun x => !(f x))).count a = l.count a := by
  intro l
  induction l with
  | nil => rfl
  | cons x l ih =>
    by_cases hx : f x = true
    · rw [List.filter_cons_of_pos hx, List.filter_cons_of_neg (by simp [hx]),
        List.count_cons, List.count_cons]
      omega
    · have hx' : f x = false := by simp at hx; exact hx
      rw [List.filter_cons_of_neg (by simp [hx']), List.filter_cons_of_pos (by simp [hx']),
        List.count_cons, List.count_cons]
      omega

theorem count_flatten_dlListsFor (a : CocoAnnot) :
    ∀ (imgs : List CocoImage) (pool : List CocoAnnot),
      ((dlListsFor pool imgs).flatten).count a ≤ pool.count a := by
  intro imgs
  induction imgs with
  | nil => intro pool; simp [dlListsFor]
  | cons img rest ih =>
    intro pool
    rw [dlListsFor, List.flatten_cons, List.count_append]
    have h1 := ih (pool.filter (fun x => !(x.image_id == img.id)))
    have h2 := count_filter_not_add a (fun x => x.image_id == img.id) pool
    omega

theorem dlListsFor_getD_no_collision :
    ∀ (imgs : List CocoImage) (pool : List CocoAnnot) (j : Nat), j < imgs.length →
      (∀ i, i < j →
        (imgs.getD i defaultCocoImage).id ≠ (imgs.getD j defaultCocoImage).id) →
      (dlListsFor pool imgs).getD j [] =
        pool.filter (fun a => a.image_id == (imgs.getD j defaultCocoImage).id) := by
  intro imgs
  induction imgs with
  | nil => intro pool j hj; simp at hj
  | cons img rest ih =>
    intro pool j hj hne
    cases j with
    | zero => rfl
    | succ j' =>
      have hj' : j' < rest.length := by simpa using hj
      have hne' : ∀ i, i < j' →
          (rest.getD i defaultCocoImage).id ≠ (rest.getD j' defaultCocoImage).id := by
        intro i hi
        have := hne (i + 1) (by omega)
        simpa using this
      have h0 : img.id ≠ (rest.getD j' defaultCocoImage).id := by
        have := hne 0 (by omega)
        simpa using this
      rw [dlListsFor]
      have hgd : ((pool.filter (fun a => a.image_id == img.id) ::
          dlListsFor (pool.filter (fun a => !(a.image_id == img.id))) rest).getD (j' + 1) []) =
          (dlListsFor (pool.filter (fun a => !(a.image_id == img.id))) rest).getD j' [] := rfl
      rw [hgd, ih _ j' hj' hne', List.filter_filter]
      have hgd2 : ((img :: rest).getD (j' + 1) defaultCocoImage) =
          rest.getD j' defaultCocoImage := rfl
      rw [hgd2]
      apply List.filter_congr
      intro a _
      by_cases ha : a.image_id = (rest.getD j' defaultCocoImage).id
      · have h1 : (a.image_id == (rest.getD j' defaultCocoImage).id) = true := by
          rw [beq_iff_eq]
          exact ha
        have h2 : (a.image_id == img.id) = false := by
          rw [beq_eq_false_iff_ne, ha]
          exact fun hh => h0 hh.symm
        rw [h1, h2]
        rfl
      · have h1 : (a.image_id == (rest.getD j' defaultCocoImage).id) = false := by
          rw [beq_eq_false_iff_ne]
          exact ha
        rw [h1]
        rfl

theorem dlListsFor_getD_absent :
    ∀ (imgs : List CocoImage) (pool : List CocoAnnot) (j : Nat) (d : Int),
      j < imgs.length → (imgs.getD j defaultCocoImage).id = d →
      (∀ a ∈ pool, (a.image_id == d) = false) →
      (dlListsFor pool imgs).getD j [] = [] := by
  intro imgs
  induction imgs with
  | nil => intro pool j d hj; simp at hj
  | cons img rest ih =>
    intro pool j d hj hd habs
    cases j with
    | zero =>
      rw [dlListsFor]
      have : pool.filter (fun a => a.image_id == img.id) = [] := by
        apply List.filter_eq_nil_iff.mpr
        intro a ha
        have := habs a ha
        have hid : ((img :: rest).getD 0 defaultCocoImage).id = img.id := rfl
        rw [hid] at hd
        rw [← hd] at this
        simp at this
        simp [this]
      rw [this]
      rfl
    | succ j' =>
      have hj' : j' < rest.length := by simpa using hj
      rw [dlListsFor]
      have hgd : ((pool.filter (fun a => a.image_id == img.id) ::
          dlListsFor (pool.filter (fun a => !(a.image_id == img.id))) rest).getD (j' + 1) []) =
          (dlListsFor (pool.filter (fun a => !(a.image_id == img.id))) rest).getD j' [] := rfl
      rw [hgd]
      refine ih _ j' d hj' hd ?_
      intro a ha
      exact habs a (List.mem_of_mem_filter ha)

theorem dlListsFor_getD_collision :
    ∀ (imgs : List CocoImage) (pool : List CocoAnnot) (i j : Nat),
      i < j → j < imgs.length →
      (imgs.getD i defaultCocoImage).id = (imgs.getD j defaultCocoImage).id →
      (dlListsFor pool imgs).getD j [] = [] := by
  intro imgs
  induction imgs with
  | nil => intro pool i j hij hj; simp at hj
  | cons img rest ih =>
    intro pool i j hij hj heq
    cases j with
    | zero => omega
    | succ j' =>
      have hj' : j' < rest.length := by simpa using hj
      rw [dlListsFor]
      have hgd : ((pool.filter (fun a => a.image_id == img.id) ::
          dlListsFor (pool.filter (fun a => !(a.image_id == img.id))) rest).getD (j' + 1) []) =
          (dlListsFor (pool.filter (fun a => !(a.image_id == img.id))) rest).getD j' [] := rfl
      rw [hgd]
      cases i with
      | zero =>
        have hd : (rest.getD j' defaultCocoImage).id = img.id := by
          have h1 : ((img :: rest).getD 0 defaultCocoImage).id = img.id := rfl
          have h2 : ((img :: rest).getD (j' + 1) defaultCocoImage) =
              rest.getD j' defaultCocoImage := rfl
          rw [h1, h2] at heq
          exact heq.symm
        refine dlListsFor_getD_absent rest _ j' img.id hj' hd ?_
        intro a ha
        have := List.mem_filter.mp ha
        simpa using this.2
      | succ i' =>
        exact ih _ i' j' (by omega) hj' heq

/-! ## Lemmas: the round trip through the aggregate record -/

theorem annToXmlObj_mkCocoAnnot (cats : List CocoCategory) (imgId aid : Int)
    (r : VocRegion) :
    annToXmlObj (mkCocoAnnot cats imgId aid r) = regionToXmlObj r := by
  have hx : r.bbox.xmin + (r.bbox.xmax - r.bbox.xmin) = r.bbox.xmax := by ring
  have hy : r.bbox.ymin + (r.bbox.ymax - r.bbox.ymin) = r.bbox.ymax := by ring
  simp only [annToXmlObj, mkCocoAnnot, regionToXmlObj, hx, hy]

theorem outsFor_allAnnots (cats : List CocoCategory) :
    ∀ (k : Nat) (aid : Int) (va : List VocAnn),
      outsFor (allAnnots cats k aid va)
          ((va.enumFrom k).map (fun p =>
            ({ file_name := p.2.image_info.filename, width := p.2.image_info.width,
               height := p.2.image_info.height, depth := p.2.image_info.depth,
               id := (p.1 : Int) } : CocoImage))) =
        va.map (fun a => (xmlName a.image_info.filename, roundTripDoc a)) := by
  intro k aid va
  induction va generalizing k aid with
  | nil => simp [outsFor, allAnnots]
  | cons a rest ih =>
    rw [List.enumFrom_cons, List.map_cons, List.map_cons, outsFor]
    dsimp only
    rw [filter_allAnnots_head cats a rest k aid, filter_not_allAnnots_head cats a rest k aid]
    congr 1
    · have hdoc : imgToXmlDoc
          ({ file_name := a.image_info.filename, width := a.image_info.width,
             height := a.image_info.height, depth := a.image_info.depth,
             id := (k : Int) } : CocoImage)
          (annListFor cats (k : Int) aid a.ann) = roundTripDoc a := by
        rw [imgToXmlDoc, roundTripDoc]
        dsimp only
        rw [annListFor_map_proj cats (k : Int) annToXmlObj regionToXmlObj
          (fun aid2 r => annToXmlObj_mkCocoAnnot cats (k : Int) aid2 r)]
      rw [hdoc]
    · exact ih (k + 1) (aid + (a.ann.length : Int))

/-! ## Lemmas: exactness of the float model -/

theorem pyFloatNat_small {m : Nat} (h : m ≤ 2 ^ 53) : pyFloatNat m = m := by
  rw [pyFloatNat, if_pos h]

theorem pyFloat_exact {n : Int} (h : n.natAbs ≤ 2 ^ 53) : pyFloat n = n := by
  rw [pyFloat]
  by_cases hn : n < 0
  · rw [if_pos hn, pyFloatNat_small h]
    omega
  · rw [if_neg hn, pyFloatNat_small h]
    omega

theorem log2_big : Nat.log2 9007199254740993 = 53 := by
  rw [Nat.log2_eq_log_two]
  apply Nat.log_eq_of_pow_le_of_lt_pow
  · norm_num
  · norm_num

theorem pyFloat_big : pyFloat 9007199254740993 = 9007199254740992 := by
  rw [pyFloat, if_neg (by norm_num)]
  have hna : ((9007199254740993 : Int)).natAbs = 9007199254740993 := rfl
  rw [hna, pyFloatNat, if_neg (by norm_num), log2_big]
  have hstep : (2 : Nat) ^ (53 - 52) = 2 := by norm_num
  rw [hstep]
  simp only [roundHalfEven]
  norm_num

/-! ## Lemmas: reader failure on missing required elements -/

theorem find_isSome_of_findInt {x : XmlNode} {t : String} {v : Int}
    (h : findInt x t = some v) : ∃ n, x.find t = some n := by
  cases hf : x.find t with
  | none => simp [findInt, hf] at h
  | some n => exact ⟨n, rfl⟩

theorem parseCornerBox_not_missing {bb : XmlNode} {cb : CornerBox}
    (h : parseCornerBox bb = some cb) :
    ((bb.find "xmin").isNone || (bb.find "ymin").isNone ||
     (bb.find "xmax").isNone || (bb.find "ymax").isNone) = false := by
  cases h1 : findInt bb "xmin" with
  | none => simp [parseCornerBox, h1] at h
  | some v1 =>
    cases h2 : findInt bb "ymin" with
    | none => simp [parseCornerBox, h1, h2] at h
    | some v2 =>
      cases h3 : findInt bb "xmax" with
      | none => simp [parseCornerBox, h1, h2, h3] at h
      | some v3 =>
        cases h4 : findInt bb "ymax" with
        | none => simp [parseCornerBox, h1, h2, h3, h4] at h
        | some v4 =>
          obtain ⟨n1, hn1⟩ := find_isSome_of_findInt h1
          obtain ⟨n2, hn2⟩ := find_isSome_of_findInt h2
          obtain ⟨n3, hn3⟩ := find_isSome_of_findInt h3
          obtain ⟨n4, hn4⟩ := find_isSome_of_findInt h4
          simp [hn1, hn2, hn3, hn4]

theorem parseVocObject_not_missing {o : XmlNode} {r : VocRegion}
    (h : parseVocObject o = some r) : objectElementMissing o = false := by
  cases h1 : o.find "name" with
  | none => simp [parseVocObject, h1] at h
  | some nameN =>
    cases h2 : o.find "pose" with
    | none => simp [parseVocObject, h1, h2] at h
    | some poseN =>
      cases h3 : findInt o "truncated" with
      | none => simp [parseVocObject, h1, h2, h3] at h
      | some tr =>
        cases h4 : findInt o "difficult" with
        | none => simp [parseVocObject, h1, h2, h3, h4] at h
        | some df =>
          cases h5 : o.find "bndbox" with
          | none => simp [parseVocObject, h1, h2, h3, h4, h5] at h
          | some bb =>
            cases h6 : parseCornerBox bb with
            | none => simp [parseVocObject, h1, h2, h3, h4, h5, h6] at h
            | some cb =>
              obtain ⟨n3, hn3⟩ := find_isSome_of_findInt h3
              obtain ⟨n4, hn4⟩ := find_isSome_of_findInt h4
              have hcb := parseCornerBox_not_missing h6
              rw [objectElementMissing, h1, h2, hn3, hn4, h5]
              simp only [Option.isNone_some, Bool.false_or]
              simp only [Bool.or_eq_false_iff] at hcb
              simp [hcb.1.1.1, hcb.1.1.2, hcb.1.2, hcb.2]

theorem loadVocObjects_not_missing :
    ∀ {objs : List XmlNode} {ls : List String} {rs : List VocRegion} {ls' : List String},
      loadVocObjects ls objs = some (rs, ls') →
      ∀ o ∈ objs, objectElementMissing o = false := by
  intro objs
  induction objs with
  | nil => intro ls rs ls' h o ho; cases ho
  | cons o rest ih =>
    intro ls rs ls' h x hx
    cases hp : parseVocObject o with
    | none => simp [loadVocObjects, hp] at h
    | some r =>
      cases hrec : loadVocObjects (addLabel ls r.label) rest with
      | none => simp [loadVocObjects, hp, hrec] at h
      | some p =>
        rcases List.mem_cons.mp hx with rfl | hx
        · exact parseVocObject_not_missing hp
        · exact ih hrec x hx

theorem parseVocFile_not_missing {ls : List String} {root : XmlNode}
    {p : VocAnn × List String} (h : parseVocFile ls root = some p) :
    requiredElementMissing root = false := by
  cases h1 : root.find "filename" with
  | none => simp [parseVocFile, h1] at h
  | some filenameN =>
    cases h2 : root.find "size" with
    | none => simp [parseVocFile, h1, h2] at h
    | some sizeN =>
      cases h3 : findInt sizeN "width" with
      | none => simp [parseVocFile, h1, h2, h3] at h
      | some width =>
        cases h4 : findInt sizeN "height" with
        | none => simp [parseVocFile, h1, h2, h3, h4] at h
        | some height =>
          cases h5 : findInt sizeN "depth" with
          | none => simp [parseVocFile, h1, h2, h3, h4, h5] at h
          | some depth =>
            cases h6 : loadVocObjects ls (XmlNode.iterTag "object" root) with
            | none => simp [parseVocFile, h1, h2, h3, h4, h5, h6] at h
            | some q =>
              obtain ⟨n3, hn3⟩ := find_isSome_of_findInt h3
              obtain ⟨n4, hn4⟩ := find_isSome_of_findInt h4
              obtain ⟨n5, hn5⟩ := find_isSome_of_findInt h5
              have hobj := loadVocObjects_not_missing h6
              rw [requiredElementMissing, h1, h2]
              simp only [hn3, hn4, hn5, Option.isNone_some, Bool.false_or,
                List.any_eq_false]
              simpa using hobj

theorem loadVocFiles_not_missing :
    ∀ {files : List XmlNode} {ls : List String} {p : List VocAnn × List String},
      loadVocFiles ls files = some p →
      ∀ x ∈ files, requiredElementMissing x = false := by
  intro files
  induction files with
  | nil => intro ls p h x hx; cases hx
  | cons f rest ih =>
    intro ls p h x hx
    cases hf : parseVocFile ls f with
    | none => simp [loadVocFiles, hf] at h
    | some q =>
      obtain ⟨a, ls1⟩ := q
      cases hrec : loadVocFiles ls1 rest with
      | none => simp [loadVocFiles, hf, hrec] at h
      | some q2 =>
        rcases List.mem_cons.mp hx with rfl | hx
        · exact parseVocFile_not_missing hf
        · exact ih hrec x hx

/-! ## Shared per-annotation facts -/

theorem mem_allAnnots_name_cid {cats : List CocoCategory} {k : Nat} {aid : Int}
    {va : List VocAnn} {a : CocoAnnot} (ha : a ∈ allAnnots cats k aid va) :
    ∃ r ∈ flatRegions va, a.name = r.label ∧
      a.category_id = (resolveCategory cats r.label).getD 0 := by
  have hmap := allAnnots_map_proj cats
    (fun a => (a.name, a.category_id))
    (fun r => (r.label, (resolveCategory cats r.label).getD 0))
    (fun _ _ _ => rfl) k aid va
  have hmem : (a.name, a.category_id) ∈
      (allAnnots cats k aid va).map (fun a => (a.name, a.category_id)) :=
    List.mem_map_of_mem _ ha
  rw [hmap] at hmem
  obtain ⟨r, hr, heq⟩ := List.mem_map.mp hmem
  obtain ⟨h1, h2⟩ := Prod.mk.injEq _ _ _ _ ▸ heq
  exact ⟨r, hr, h1.symm, h2.symm⟩

/-! ## The claims -/

/-- C1: for every distributed-format dataset, converting it to an
aggregate record with voc2coco and converting that aggregate back with
coco2voc yields, for each image, the same set of regions (same label,
pose, truncated flag, difficult flag, and corner-form bounding box,
serialized in the output documents) and the same image metadata
(filename, width, height, depth), image by image in order. -/
theorem c1_roundtrip {files : List XmlNode} {va : List VocAnn} {ls : List String}
    {c : CocoAnn} (hl : load_voc_ann files = some (va, ls))
    (hb : voc2cocoBuild va ls = some c) :
    (coco2vocOutputs c).map Prod.snd = va.map roundTripDoc ∧
    (coco2vocOutputs c).length = va.length := by
  have heq := voc2cocoBuild_eq (load_voc_ann_labels_covered hl)
  rw [hb] at heq
  have hc := Option.some.inj heq
  subst hc
  rw [coco2vocOutputs_eq]
  have himg : imagesOf va = (va.enumFrom 0).map (fun p =>
      ({ file_name := p.2.image_info.filename, width := p.2.image_info.width,
         height := p.2.image_info.height, depth := p.2.image_info.depth,
         id := (p.1 : Int) } : CocoImage)) := rfl
  have hout : outsFor (allAnnots (catsOf ls) 0 0 va) (imagesOf va) =
      va.map (fun a => (xmlName a.image_info.filename, roundTripDoc a)) := by
    rw [himg]
    exact outsFor_allAnnots (catsOf ls) 0 0 va
  constructor
  · show (outsFor (allAnnots (catsOf ls) 0 0 va) (imagesOf va)).map Prod.snd =
      va.map roundTripDoc
    rw [hout, List.map_map]
    rfl
  · show (outsFor (allAnnots (catsOf ls) 0 0 va) (imagesOf va)).length = va.length
    rw [hout, List.length_map]

theorem c1_roundtrip_witness :
    (load_voc_ann [xfile1, xfile2] = some (va1, ["cat"]) ∧
     voc2cocoBuild va1 ["cat"] = some c1Rec) ∧
    ((coco2vocOutputs c1Rec).map Prod.snd = va1.map roundTripDoc ∧
     (coco2vocOutputs c1Rec).length = va1.length) :=
  ⟨⟨by decide, by decide⟩,
   @c1_roundtrip [xfile1, xfile2] va1 ["cat"] c1Rec (by decide) (by decide)⟩

/-- C2, counterexample to the claim as stated: on a distributed input
whose single region has corners (0, 0, 2^53 + 1, 1), the conversion
emits area 2^53 (the nearest representable double), which differs from
the exact integer product 2^53 + 1 of the corner differences, although
all coordinates are non-negative integers. -/
theorem c2_area_counterexample :
    load_voc_ann [xbig] = some (vaBig, ["big"]) ∧
    (voc2cocoBuild vaBig ["big"]).map (fun c => c.annotations.map (fun a => a.area)) =
      some [9007199254740992] ∧
    (9007199254740992 : Int) ≠ (9007199254740993 - 0) * (1 - 0) := by
  refine ⟨by decide, ?_, by decide⟩
  have hcov : ∀ r ∈ flatRegions vaBig, r.label ∈ ["big"] := by decide
  rw [voc2cocoBuild_eq hcov]
  have harg : ((9007199254740993 : Int) - 0) * (1 - 0) = 9007199254740993 := by norm_num
  simp [vaBig, allAnnots, annListFor, mkCocoAnnot, harg, pyFloat_big]

/-- C2, amended: for every region converted by voc2coco, the emitted
bbox is (xmin, ymin, xmax - xmin, ymax - ymin) computed by exact
integer arithmetic, and the emitted area is the float conversion of
(xmax - xmin) * (ymax - ymin); that float equals the integer product
exactly whenever the magnitude of the product is at most 2^53 (beyond
that the conversion rounds to the nearest representable double). -/
theorem c2_bbox_area {files : List XmlNode} {va : List VocAnn} {ls : List String}
    {c : CocoAnn} (hl : load_voc_ann files = some (va, ls))
    (hb : voc2cocoBuild va ls = some c) :
    c.annotations.map (fun a => (a.bbox, a.area)) =
      (flatRegions va).map (fun r =>
        (({ xmin := r.bbox.xmin, ymin := r.bbox.ymin,
            w := r.bbox.xmax - r.bbox.xmin,
            h := r.bbox.ymax - r.bbox.ymin } : CocoBox),
         pyFloat ((r.bbox.xmax - r.bbox.xmin) * (r.bbox.ymax - r.bbox.ymin)))) ∧
    ∀ a ∈ c.annotations, (a.bbox.w * a.bbox.h).natAbs ≤ 2 ^ 53 →
      a.area = a.bbox.w * a.bbox.h := by
  have heq := voc2cocoBuild_eq (load_voc_ann_labels_covered hl)
  rw [hb] at heq
  have hc := Option.some.inj heq
  subst hc
  have hmap := allAnnots_map_proj (catsOf ls)
    (fun a => (a.bbox, a.area))
    (fun r =>
      (({ xmin := r.bbox.xmin, ymin := r.bbox.ymin,
          w := r.bbox.xmax - r.bbox.xmin,
          h := r.bbox.ymax - r.bbox.ymin } : CocoBox),
       pyFloat ((r.bbox.xmax - r.bbox.xmin) * (r.bbox.ymax - r.bbox.ymin))))
    (fun _ _ _ => rfl) 0 0 va
  refine ⟨hmap, ?_⟩
  intro a ha hbound
  have hmem : (a.bbox, a.area) ∈
      (allAnnots (catsOf ls) 0 0 va).map (fun a => (a.bbox, a.area)) :=
    List.mem_map_of_mem _ ha
  rw [hmap] at hmem
  obtain ⟨r, hr, hpair⟩ := List.mem_map.mp hmem
  obtain ⟨hbox, harea⟩ := Prod.mk.injEq _ _ _ _ ▸ hpair
  have hw : a.bbox.w = r.bbox.xmax - r.bbox.xmin := by rw [← hbox]
  have hh : a.bbox.h = r.bbox.ymax - r.bbox.ymin := by rw [← hbox]
  rw [hw, hh] at hbound ⊢
  rw [← harea]
  exact pyFloat_exact hbound

theorem c2_bbox_area_witness :
    (load_voc_ann [xfile1, xfile2] = some (va1, ["cat"]) ∧
     voc2cocoBuild va1 ["cat"] = some c1Rec) ∧
    (c1Rec.annotations.map (fun a => (a.bbox, a.area)) =
      (flatRegions va1).map (fun r =>
        (({ xmin := r.bbox.xmin, ymin := r.bbox.ymin,
            w := r.bbox.xmax - r.bbox.xmin,
            h := r.bbox.ymax - r.bbox.ymin } : CocoBox),
         pyFloat ((r.bbox.xmax - r.bbox.xmin) * (r.bbox.ymax - r.bbox.ymin)))) ∧
     ∀ a ∈ c1Rec.annotations, (a.bbox.w * a.bbox.h).natAbs ≤ 2 ^ 53 →
       a.area = a.bbox.w * a.bbox.h) :=
  ⟨⟨by decide, by decide⟩,
   @c2_bbox_area [xfile1, xfile2] va1 ["cat"] c1Rec (by decide) (by decide)⟩

/-- C3: in every aggregate record produced by voc2coco, the category
ids form the dense sequence 1..N where N is the number of distinct
label names across the input (the category names are exactly the
distinct labels, in first-occurrence order, without duplicates), every
annotation's category id is the id of a category bearing its label,
and any two regions carrying the same label name receive the same
category id within one run. -/
theorem c3_categories {files : List XmlNode} {va : List VocAnn} {ls : List String}
    {c : CocoAnn} (hl : load_voc_ann files = some (va, ls))
    (hb : voc2cocoBuild va ls = some c) :
    c.categories.map (fun cat => cat.id) = rangeInts 1 c.categories.length ∧
    c.categories.map (fun cat => cat.name) = firstOccurrences (allLabels va) ∧
    (firstOccurrences (allLabels va)).Nodup ∧
    (∀ s, s ∈ firstOccurrences (allLabels va) ↔ s ∈ allLabels va) ∧
    (∀ a ∈ c.annotations, ∃ cat ∈ c.categories, cat.name = a.name ∧ cat.id = a.category_id) ∧
    (∀ a ∈ c.annotations, ∀ b ∈ c.annotations,
      a.name = b.name → a.category_id = b.category_id) := by
  have hcov := load_voc_ann_labels_covered hl
  have hls := load_voc_ann_labels hl
  have heq := voc2cocoBuild_eq hcov
  rw [hb] at heq
  have hc := Option.some.inj heq
  subst hc
  have hproj : ∀ a ∈ allAnnots (catsOf ls) 0 0 va,
      a.category_id = (resolveCategory (catsOf ls) a.name).getD 0 ∧
      ∃ r ∈ flatRegions va, a.name = r.label := by
    intro a ha
    obtain ⟨r, hr, hn, hcid⟩ := mem_allAnnots_name_cid ha
    rw [hn]
    exact ⟨hcid, r, hr, rfl⟩
  refine ⟨?_, ?_, ?_, ?_, ?_, ?_⟩
  · show (catsOf ls).map (fun cat => cat.id) = rangeInts 1 ((catsOf ls).length)
    have hlen : (catsOf ls).length = ls.length := by
      rw [catsOf, List.length_map, List.enum_length]
    rw [hlen, catsOf_map_id]
  · show (catsOf ls).map (fun cat => cat.name) = firstOccurrences (allLabels va)
    rw [catsOf_map_name, hls]
  · exact nodup_firstOccurrences _
  · intro s
    exact mem_firstOccurrences
  · intro a ha
    obtain ⟨hcid, r, hr, hn⟩ := hproj a ha
    have hmem : a.name ∈ ls := by
      rw [hn]
      exact hcov r hr
    obtain ⟨cid, hres⟩ := Option.isSome_iff_exists.mp (resolveCategory_isSome hmem)
    obtain ⟨cat, hcat, hname, hid⟩ := resolveCategory_spec hres
    refine ⟨cat, hcat, hname, ?_⟩
    rw [hcid, hres, hid]
    rfl
  · intro a ha b hbmem hab
    obtain ⟨hcida, _⟩ := hproj a ha
    obtain ⟨hcidb, _⟩ := hproj b hbmem
    rw [hcida, hcidb, hab]

theorem c3_categories_witness :
    (load_voc_ann [xfile1, xfile2] = some (va1, ["cat"]) ∧
     voc2cocoBuild va1 ["cat"] = some c1Rec) ∧
    (c1Rec.categories.map (fun cat => cat.id) = rangeInts 1 c1Rec.categories.length ∧
     c1Rec.categories.map (fun cat => cat.name) = firstOccurrences (allLabels va1)) :=
  ⟨⟨by decide, by decide⟩,
   ⟨(@c3_categories [xfile1, xfile2] va1 ["cat"] c1Rec (by decide) (by decide)).1,
    (@c3_categories [xfile1, xfile2] va1 ["cat"] c1Rec (by decide) (by decide)).2.1⟩⟩

/-- C4: in every aggregate record produced by voc2coco, the annotation
ids, read in emission order (images in input order, regions within
each image in listed order), are exactly 0, 1, 2, ... with no reset
between images, and are therefore unique. -/
theorem c4_annot_ids {files : List XmlNode} {va : List VocAnn} {ls : List String}
    {c : CocoAnn} (hl : load_voc_ann files = some (va, ls))
    (hb : voc2cocoBuild va ls = some c) :
    c.annotations.map (fun a => a.id) = rangeInts 0 c.annotations.length ∧
    (c.annotations.map (fun a => a.id)).Nodup := by
  have heq := voc2cocoBuild_eq (load_voc_ann_labels_covered hl)
  rw [hb] at heq
  have hc := Option.some.inj heq
  subst hc
  have hlen : (allAnnots (catsOf ls) 0 0 va).length = (flatRegions va).length := by
    have := congrArg List.length (allAnnots_map_id (catsOf ls) 0 0 va)
    rw [List.length_map, rangeInts, List.length_map, List.length_range] at this
    exact this
  constructor
  · show (allAnnots (catsOf ls) 0 0 va).map (fun a => a.id) =
      rangeInts 0 ((allAnnots (catsOf ls) 0 0 va).length)
    rw [hlen, allAnnots_map_id]
  · show ((allAnnots (catsOf ls) 0 0 va).map (fun a => a.id)).Nodup
    rw [allAnnots_map_id]
    exact nodup_rangeInts 0 _

theorem c4_annot_ids_witness :
    (load_voc_ann [xfile1, xfile2] = some (va1, ["cat"]) ∧
     voc2cocoBuild va1 ["cat"] = some c1Rec) ∧
    (c1Rec.annotations.map (fun a => a.id) = rangeInts 0 c1Rec.annotations.length ∧
     (c1Rec.annotations.map (fun a => a.id)).Nodup) :=
  ⟨⟨by decide, by decide⟩,
   @c4_annot_ids [xfile1, xfile2] va1 ["cat"] c1Rec (by decide) (by decide)⟩

/-- C5, counterexample to the claim as stated: for an image whose file
name is a.b.jpg, coco2voc emits the file a.xml (the part before the
first dot plus .xml), not a.b.xml as replacing the extension (the part
after the final dot) would give. -/
theorem c5_extension_counterexample :
    (coco2vocOutputs cRec5).map Prod.fst = ["a.xml"] ∧
    extensionReplacedXml "a.b.jpg" = "a.b.xml" ∧
    ("a.xml" : String) ≠ "a.b.xml" :=
  ⟨by decide, by decide, by decide⟩

/-- C5, amended: for every aggregate record given to coco2voc, exactly
one descriptor file is emitted per ImageRecord, and each output file's
name is the part of the image's file name before the first dot (the
whole name when it has no dot) with .xml appended; this coincides with
replacing the extension only when the base name contains no further
dot. -/
theorem c5_output_names (c : CocoAnn) :
    (coco2vocOutputs c).length = c.images.length ∧
    (coco2vocOutputs c).map Prod.fst =
      c.images.map (fun img => xmlName img.file_name) := by
  rw [coco2vocOutputs_eq]
  exact ⟨outsFor_length _ _, outsFor_map_fst _ _⟩

/-- C6: during coco2voc every annotation is emitted at most once
(counting multiplicity, the emitted del_lists flatten to a sub-multiset
of the annotation pool); an image with no earlier id collision
receives exactly the annotations whose image_id matches its id; and
when several images share an id, every later image with the colliding
id receives nothing, because the first matching image consumed the
annotations. -/
theorem c6_consumption (c : CocoAnn) :
    (coco2vocDelLists c).length = c.images.length ∧
    (∀ a : CocoAnnot, ((coco2vocDelLists c).flatten).count a ≤ c.annotations.count a) ∧
    (∀ j, j < c.images.length →
      (∀ i, i < j →
        (c.images.getD i defaultCocoImage).id ≠ (c.images.getD j defaultCocoImage).id) →
      (coco2vocDelLists c).getD j [] =
        c.annotations.filter
          (fun a => a.image_id == (c.images.getD j defaultCocoImage).id)) ∧
    (∀ i j, i < j → j < c.images.length →
      (c.images.getD i defaultCocoImage).id = (c.images.getD j defaultCocoImage).id →
      (coco2vocDelLists c).getD j [] = []) := by
  rw [coco2vocDelLists_eq]
  exact ⟨dlListsFor_length _ _,
         fun a => count_flatten_dlListsFor a _ _,
         fun j hj hne => dlListsFor_getD_no_collision _ _ j hj hne,
         fun i j hij hj heqid => dlListsFor_getD_collision _ _ i j hij hj heqid⟩

theorem c6_consumption_witness :
    ((coco2vocDelLists cRec6).getD 0 [] =
      cRec6.annotations.filter
        (fun a => a.image_id == (cRec6.images.getD 0 defaultCocoImage).id)) ∧
    (coco2vocDelLists cRec6).getD 1 [] = [] :=
  ⟨(c6_consumption cRec6).2.2.1 0 (by decide) (fun i hi => absurd hi (by omega)),
   (c6_consumption cRec6).2.2.2 0 1 (by decide) (by decide) (by decide)⟩

/-- C7, counterexample to the claim as stated: invoking the CLI with
neither direction flag set does not fail; the program performs no
conversion and finishes without any error. -/
theorem c7_usage_counterexample : mainDispatch false false = Except.ok [] := rfl

/-- C7, amended: invoking the CLI with both direction flags set fails
with the assertion (usage) error before either converter is invoked,
so before any filesystem access by the conversion logic; with neither
flag set, the program does not fail: it invokes no converter and exits
normally; with exactly one flag, exactly that converter runs. -/
theorem c7_usage :
    mainDispatch true true =
      Except.error "Can not operate VOC to COCO and COCO to VOC simultaneously" ∧
    mainDispatch false false = Except.ok [] ∧
    mainDispatch true false = Except.ok [ConvCall.voc2cocoCall] ∧
    mainDispatch false true = Except.ok [ConvCall.coco2vocCall] :=
  ⟨rfl, rfl, rfl, rfl⟩

/-- C8, counterexample to the claim as stated: with categories built
from the label set consisting only of the label a, the second region's
label b matches no category, yet the conversion does not fail: the
category_id variable silently keeps the value 1 resolved for the
earlier region, and both annotations are emitted with category id
1. -/
theorem c8_stale_lookup_counterexample :
    resolveCategory (catsOf ["a"]) "b" = none ∧
    (voc2cocoBuild va8 ["a"]).map (fun c => c.annotations.map (fun a => a.category_id)) =
      some [1, 1] :=
  ⟨by decide, by decide⟩

/-- C8, amended: each region's category id is resolved by exact-name
lookup against the categories of step 1 (in a run driven by the reader
the lookup always succeeds and the annotation carries the resolved
id); when no category matches and no earlier region has resolved one,
the conversion fails with a name-resolution error (the category_id
variable was never assigned); but when an earlier region did resolve,
the stale id is silently reused and no error is raised. -/
theorem c8_category_lookup :
    (∀ (files : List XmlNode) (va : List VocAnn) (ls : List String) (c : CocoAnn),
      load_voc_ann files = some (va, ls) → voc2cocoBuild va ls = some c →
      ∀ a ∈ c.annotations,
        (resolveCategory (catsOf ls) a.name).isSome = true ∧
        a.category_id = (resolveCategory (catsOf ls) a.name).getD 0) ∧
    (∀ (info : ImageInfo) (r : VocRegion) (rest : List VocRegion) (ls : List String),
      resolveCategory (catsOf ls) r.label = none →
      voc2cocoBuild [{ image_info := info, ann := r :: rest }] ls = none) := by
  constructor
  · intro files va ls c hl hb a ha
    have hcov := load_voc_ann_labels_covered hl
    have heq := voc2cocoBuild_eq hcov
    rw [hb] at heq
    have hc := Option.some.inj heq
    subst hc
    obtain ⟨r, hr, hn, hcid⟩ := mem_allAnnots_name_cid ha
    rw [hn, hcid]
    exact ⟨resolveCategory_isSome (hcov r hr), rfl⟩
  · intro info r rest ls hres
    have hpr : processRegion (catsOf ls) 0
        ({ annotation_id := 0, category_id := none }, []) r = none := by
      simp [processRegion, hres]
    have h1 : (([{ image_info := info, ann := r :: rest }] : List VocAnn).enum) =
        [(0, ({ image_info := info, ann := r :: rest } : VocAnn))] := rfl
    rw [voc2cocoBuild, h1]
    simp [processImage, List.foldlM_cons, hpr]

theorem c8_category_lookup_witness :
    ((load_voc_ann [xfile1, xfile2] = some (va1, ["cat"]) ∧
      voc2cocoBuild va1 ["cat"] = some c1Rec) ∧
     (∀ a ∈ c1Rec.annotations,
       (resolveCategory (catsOf ["cat"]) a.name).isSome = true ∧
       a.category_id = (resolveCategory (catsOf ["cat"]) a.name).getD 0)) ∧
    (resolveCategory (catsOf ["dog"])
        ({ label := "b", pose := "p", truncated := 0, difficult := 0,
           bbox := { xmin := 0, ymin := 0, xmax := 1, ymax := 1 } } : VocRegion).label = none ∧
     voc2cocoBuild
       [{ image_info := { filename := "f.jpg", width := 1, height := 1, depth := 3 },
          ann := [{ label := "b", pose := "p", truncated := 0, difficult := 0,
                    bbox := { xmin := 0, ymin := 0, xmax := 1, ymax := 1 } }] }]
       ["dog"] = none) :=
  ⟨⟨⟨by decide, by decide⟩,
    c8_category_lookup.1 [xfile1, xfile2] va1 ["cat"] c1Rec (by decide) (by decide)⟩,
   ⟨by decide,
    c8_category_lookup.2
      { filename := "f.jpg", width := 1, height := 1, depth := 3 }
      { label := "b", pose := "p", truncated := 0, difficult := 0,
        bbox := { xmin := 0, ymin := 0, xmax := 1, ymax := 1 } }
      [] ["dog"] (by decide)⟩⟩

/-- C9: for every descriptor file in which a required element is
absent (filename, size, width, height or depth under size, or for any
object node its name, pose, truncated, difficult, bndbox or a corner
under bndbox), the distributed-format reader fails: the whole run of
load_voc_ann aborts with the lookup failure propagated, and no
default is substituted. -/
theorem c9_missing_element {files : List XmlNode} {x : XmlNode}
    (hx : x ∈ files) (hmiss : requiredElementMissing x = true) :
    load_voc_ann files = none := by
  cases hload : load_voc_ann files with
  | none => rfl
  | some p =>
    rw [load_voc_ann] at hload
    have hfalse := loadVocFiles_not_missing hload x hx
    rw [hmiss] at hfalse
    cases hfalse

theorem c9_missing_element_witness :
    (xfileMissingSize ∈ [xfile1, xfileMissingSize] ∧
     requiredElementMissing xfileMissingSize = true) ∧
    load_voc_ann [xfile1, xfileMissingSize] = none :=
  ⟨⟨by decide, by decide⟩,
   @c9_missing_element [xfile1, xfileMissingSize] xfileMissingSize (by decide) (by decide)⟩

/-- C10: when coco2voc is called with a destination path that does not
exist and a source that is not a file, the destination directory is
created first and the run then fails with the not-found error, so the
failing run leaves the newly created directory behind. -/
theorem c10_mkdir_before_check (dstIsDir : Bool) :
    coco2vocPrelude false dstIsDir false = (true, some CocoVocError.fileNotFound) := by
  cases dstIsDir <;> rfl
